import Mathlib

/-!
Verification of the translation-unit statistics subsystem (`src/tu_stats.rs`):
the persistent statistics store, its key derivation, the global recorder,
the CSV exporter, and the top-N include aggregator.

The Rust code is shallowly embedded: the fjall partition becomes an
association list from string keys to stored values, serde_json becomes a
structured value codec over a JSON value type, and the process-global
recorder becomes explicit state passing.  Fallible operations return
`Except`/`Option`.
-/

/-! ## Decimal rendering of machine integers

Rust renders `u32`/`u64`/`usize`/`u128` with decimal digits and `i64` with a
leading minus sign for negatives, both in `Display` and in `Debug` position.
`natDigitsF` is a fuel-indexed structural recursion so that concrete values
reduce inside the kernel; `natDigits n` supplies enough fuel. -/

def digitChar (d : Nat) : Char := Char.ofNat (48 + d)

def natDigitsF : Nat → Nat → List Char
  | 0, _ => []
  | fuel + 1, n =>
    if n < 10 then [digitChar n]
    else natDigitsF fuel (n / 10) ++ [digitChar (n % 10)]

def natDigits (n : Nat) : List Char := natDigitsF (n + 1) n

theorem natDigitsF_fuel_eq : ∀ (n f f' : Nat), n < f → n < f' →
    natDigitsF f n = natDigitsF f' n := by
  intro n
  induction n using Nat.strong_induction_on with
  | _ n ih =>
    intro f f' hf hf'
    match f, f' with
    | g + 1, g' + 1 =>
      by_cases h : n < 10
      · simp [natDigitsF, h]
      · have hn : 0 < n := by omega
        have hdiv : n / 10 < n := Nat.div_lt_self hn (by omega)
        simp only [natDigitsF, h, if_false]
        rw [ih (n / 10) hdiv g g' (by omega) (by omega)]

theorem natDigits_lt {n : Nat} (h : n < 10) : natDigits n = [digitChar n] := by
  simp [natDigits, natDigitsF, h]

theorem natDigits_ge {n : Nat} (h : ¬ n < 10) :
    natDigits n = natDigits (n / 10) ++ [digitChar (n % 10)] := by
  have hn : 0 < n := by omega
  have hdiv : n / 10 < n := Nat.div_lt_self hn (by omega)
  have h1 : natDigits n = natDigitsF n (n / 10) ++ [digitChar (n % 10)] := by
    simp only [natDigits, natDigitsF, h, if_false]
  rw [h1, natDigitsF_fuel_eq (n / 10) n (n / 10 + 1) (by omega) (by omega)]
  rfl

theorem natDigits_ne_nil (n : Nat) : natDigits n ≠ [] := by
  by_cases h : n < 10
  · simp [natDigits_lt h]
  · simp [natDigits_ge h]

theorem natDigits_length_pos (n : Nat) : 0 < (natDigits n).length :=
  List.length_pos.mpr (natDigits_ne_nil n)

/-- Every character emitted by `natDigits` is one of the ten decimal digits. -/
theorem natDigits_mem_digits (n : Nat) :
    ∀ c ∈ natDigits n, c ∈ "0123456789".data := by
  induction n using Nat.strong_induction_on with
  | _ n ih =>
    intro c hc
    by_cases h : n < 10
    · rw [natDigits_lt h] at hc
      simp only [List.mem_singleton] at hc
      subst hc
      interval_cases n <;> decide
    · rw [natDigits_ge h] at hc
      have hn : 0 < n := by omega
      have hdiv : n / 10 < n := Nat.div_lt_self hn (by omega)
      rcases List.mem_append.mp hc with h1 | h1
      · exact ih (n / 10) hdiv c h1
      · simp only [List.mem_singleton] at h1
        subst h1
        have hm : n % 10 < 10 := Nat.mod_lt n (by omega)
        set d := n % 10 with hd
        clear_value d
        interval_cases d <;> decide

theorem digitChar_inj {a b : Nat} (ha : a < 10) (hb : b < 10)
    (h : digitChar a = digitChar b) : a = b := by
  have key : ∀ x y : Fin 10, digitChar x.val = digitChar y.val → x = y := by decide
  have := key ⟨a, ha⟩ ⟨b, hb⟩ h
  exact congrArg Fin.val this

theorem natDigits_inj : ∀ (n m : Nat), natDigits n = natDigits m → n = m := by
  intro n
  induction n using Nat.strong_induction_on with
  | _ n ih =>
    intro m h
    by_cases hn : n < 10 <;> by_cases hm : m < 10
    · rw [natDigits_lt hn, natDigits_lt hm] at h
      simp only [List.cons.injEq, and_true] at h
      exact digitChar_inj hn hm h
    · exfalso
      rw [natDigits_lt hn, natDigits_ge hm] at h
      have hlen := congrArg List.length h
      simp only [List.length_singleton, List.length_append] at hlen
      have := natDigits_length_pos (m / 10)
      omega
    · exfalso
      rw [natDigits_ge hn, natDigits_lt hm] at h
      have hlen := congrArg List.length h
      simp only [List.length_singleton, List.length_append] at hlen
      have := natDigits_length_pos (n / 10)
      omega
    · rw [natDigits_ge hn, natDigits_ge hm] at h
      have hrev := congrArg List.reverse h
      simp only [List.reverse_append, List.reverse_cons, List.reverse_nil,
        List.nil_append, List.singleton_append, List.cons.injEq] at hrev
      have hmod : n % 10 = m % 10 :=
        digitChar_inj (Nat.mod_lt n (by omega)) (Nat.mod_lt m (by omega)) hrev.1
      have hdivlt : n / 10 < n := Nat.div_lt_self (by omega) (by omega)
      have hdiv : n / 10 = m / 10 :=
        ih (n / 10) hdivlt (m / 10) (List.reverse_injective hrev.2)
      omega

/-- Decimal rendering of an `i64` value, as Rust prints it. -/
def intRepr : Int → List Char
  | Int.ofNat n => natDigits n
  | Int.negSucc m => '-' :: natDigits (m + 1)

theorem digits_subset_intChars :
    ∀ c ∈ "0123456789".data, c ∈ "-0123456789".data := by decide

theorem minus_not_digit : '-' ∉ "0123456789".data := by decide

theorem intRepr_mem (i : Int) : ∀ c ∈ intRepr i, c ∈ "-0123456789".data := by
  intro c hc
  cases i with
  | ofNat n =>
    exact digits_subset_intChars c (natDigits_mem_digits n c hc)
  | negSucc m =>
    simp only [intRepr, List.mem_cons] at hc
    rcases hc with h | h
    · subst h; decide
    · exact digits_subset_intChars c (natDigits_mem_digits (m + 1) c h)

theorem intRepr_inj {i j : Int} (h : intRepr i = intRepr j) : i = j := by
  cases i with
  | ofNat n =>
    cases j with
    | ofNat m =>
      exact congrArg Int.ofNat (natDigits_inj n m h)
    | negSucc m =>
      exfalso
      simp only [intRepr] at h
      have hmem : '-' ∈ natDigits n := h ▸ List.mem_cons_self '-' _
      exact minus_not_digit (natDigits_mem_digits n '-' hmem)
  | negSucc n =>
    cases j with
    | ofNat m =>
      exfalso
      simp only [intRepr] at h
      have hmem : '-' ∈ natDigits m := h ▸ List.mem_cons_self '-' _
      exact minus_not_digit (natDigits_mem_digits m '-' hmem)
    | negSucc m =>
      simp only [intRepr, List.cons.injEq, true_and] at h
      exact congrArg Int.negSucc (Nat.succ_injective (natDigits_inj _ _ h))

/-- Rust `Display` of an unsigned integer, as a Lean string. -/
def natToString (n : Nat) : String := String.mk (natDigits n)

/-! ## Data model

Mirrors the Rust structures in `tu_stats.rs`.  `PathBuf` fields are kept at
the level of their `display` rendering, a string.  `std::time::SystemTime`
is, as on Unix, a pair of a signed second count and a nanosecond count
relative to the epoch; `std::time::Duration` is a pair of second and
nanosecond counts. -/

structure Duration where
  secs : Nat
  nanos : Nat
deriving DecidableEq, Repr

structure SystemTime where
  tv_sec : Int
  tv_nsec : Nat
deriving DecidableEq, Repr

/-- Statistics about include path contributions.  The source field naming
the shared leading path segment of the group is rendered here as
`path_pre`. -/
structure IncludeStats where
  path_pre : String
  count : Nat
  lines : Nat
deriving DecidableEq, Repr

/-- Statistics about a translation unit compilation. -/
structure TranslationUnitStats where
  input_file : String
  preprocessed_size : Nat
  num_includes : Nat
  preprocess_duration : Duration
  compile_duration : Duration
  dist_retry_count : Nat
  is_distributed : Bool
  top_includes_by_count : List IncludeStats
  top_includes_by_size : List IncludeStats
  timestamp : SystemTime
deriving DecidableEq, Repr

/-! ## The serde_json value model and the record codec

`serde_json::to_vec` turns the record into a self-describing JSON document:
an object whose fields carry the struct field names.  `Json` is that
document tree; `encodeRecord`/`decodeRecord` are the derived
`Serialize`/`Deserialize` instances for `TranslationUnitStats`
(deserialization requires every field to be present and of the right
shape, failing otherwise). -/

inductive Json where
  | num (n : Int)
  | str (s : String)
  | bool (b : Bool)
  | arr (xs : List Json)
  | obj (fields : List (String × Json))

def jLookup : List (String × Json) → String → Option Json
  | [], _ => none
  | (k, v) :: rest, key => if k = key then some v else jLookup rest key

def decodeNat : Json → Option Nat
  | Json.num n => if n < 0 then none else some n.toNat
  | _ => none

def decodeStr : Json → Option String
  | Json.str s => some s
  | _ => none

def decodeBool : Json → Option Bool
  | Json.bool b => some b
  | _ => none

def encodeDuration (d : Duration) : Json :=
  Json.obj [("secs", Json.num d.secs), ("nanos", Json.num d.nanos)]

def decodeDuration (j : Json) : Option Duration :=
  match j with
  | Json.obj fs =>
    (jLookup fs "secs").bind fun js =>
    (decodeNat js).bind fun s =>
    (jLookup fs "nanos").bind fun jn =>
    (decodeNat jn).bind fun n =>
    some ⟨s, n⟩
  | _ => none

/-- Function `SystemTime::duration_since(UNIX_EPOCH)`, as an `Option`:
for a normalized timestamp (nanosecond part in `[0, 10^9)`) the instant
lies before the epoch exactly when `tv_sec` is negative, and the
computation fails there. -/
def duration_since_epoch (t : SystemTime) : Option Duration :=
  if t.tv_sec < 0 then none else some ⟨t.tv_sec.toNat, t.tv_nsec⟩

/-- serde serializes a `SystemTime` as the unsigned pair
`secs_since_epoch`/`nanos_since_epoch` taken from
`duration_since(UNIX_EPOCH)`, and FAILS for an instant before the epoch
("SystemTime must be later than UNIX_EPOCH"); a negative second count is
never emitted. -/
def encodeSystemTime (t : SystemTime) : Option Json :=
  match duration_since_epoch t with
  | none => none
  | some d =>
    some (Json.obj [("secs_since_epoch", Json.num d.secs),
                    ("nanos_since_epoch", Json.num d.nanos)])

/-- serde deserializes `secs_since_epoch` as an unsigned integer: a
negative value is rejected, as serde never produces one. -/
def decodeSystemTime (j : Json) : Option SystemTime :=
  match j with
  | Json.obj fs =>
    (jLookup fs "secs_since_epoch").bind fun js =>
    (decodeNat js).bind fun s =>
    (jLookup fs "nanos_since_epoch").bind fun jn =>
    (decodeNat jn).bind fun n =>
    some ⟨(s : Int), n⟩
  | _ => none

def encodeIncludeStats (i : IncludeStats) : Json :=
  Json.obj [("path_prefix", Json.str i.path_pre),
            ("count", Json.num i.count),
            ("lines", Json.num i.lines)]

def decodeIncludeStats (j : Json) : Option IncludeStats :=
  match j with
  | Json.obj fs =>
    (jLookup fs "path_prefix").bind fun jp =>
    (decodeStr jp).bind fun p =>
    (jLookup fs "count").bind fun jc =>
    (decodeNat jc).bind fun c =>
    (jLookup fs "lines").bind fun jl =>
    (decodeNat jl).bind fun l =>
    some ⟨p, c, l⟩
  | _ => none

def decodeStatsElems : List Json → Option (List IncludeStats)
  | [] => some []
  | j :: js =>
    (decodeIncludeStats j).bind fun x =>
    (decodeStatsElems js).bind fun xs =>
    some (x :: xs)

def decodeStatsList (j : Json) : Option (List IncludeStats) :=
  match j with
  | Json.arr xs => decodeStatsElems xs
  | _ => none

/-- Serialization of a record (`serde_json::to_vec`): fails exactly when
the timestamp fails to serialize (an instant before the epoch); every
other field always serializes. -/
def encodeRecord (r : TranslationUnitStats) : Option Json :=
  match encodeSystemTime r.timestamp with
  | none => none
  | some jts =>
    some (Json.obj [("input_file", Json.str r.input_file),
              ("preprocessed_size", Json.num r.preprocessed_size),
              ("num_includes", Json.num r.num_includes),
              ("preprocess_duration", encodeDuration r.preprocess_duration),
              ("compile_duration", encodeDuration r.compile_duration),
              ("dist_retry_count", Json.num r.dist_retry_count),
              ("is_distributed", Json.bool r.is_distributed),
              ("top_includes_by_count", Json.arr (r.top_includes_by_count.map encodeIncludeStats)),
              ("top_includes_by_size", Json.arr (r.top_includes_by_size.map encodeIncludeStats)),
              ("timestamp", jts)])

def decodeRecord (j : Json) : Option TranslationUnitStats := do
  match j with
  | Json.obj fs =>
    let input_file ← (jLookup fs "input_file").bind decodeStr
    let preprocessed_size ← (jLookup fs "preprocessed_size").bind decodeNat
    let num_includes ← (jLookup fs "num_includes").bind decodeNat
    let preprocess_duration ← (jLookup fs "preprocess_duration").bind decodeDuration
    let compile_duration ← (jLookup fs "compile_duration").bind decodeDuration
    let dist_retry_count ← (jLookup fs "dist_retry_count").bind decodeNat
    let is_distributed ← (jLookup fs "is_distributed").bind decodeBool
    let top_includes_by_count ← (jLookup fs "top_includes_by_count").bind decodeStatsList
    let top_includes_by_size ← (jLookup fs "top_includes_by_size").bind decodeStatsList
    let timestamp ← (jLookup fs "timestamp").bind decodeSystemTime
    some ⟨input_file, preprocessed_size, num_includes, preprocess_duration,
          compile_duration, dist_retry_count, is_distributed,
          top_includes_by_count, top_includes_by_size, timestamp⟩
  | _ => none

theorem decodeNat_natCast (n : Nat) : decodeNat (Json.num (n : Int)) = some n := by
  have h1 : ¬ ((n : Int) < 0) := by omega
  have h2 : ((n : Int)).toNat = n := by omega
  simp [decodeNat, h1, h2]

theorem decodeNat_of_nonneg {i : Int} (h : 0 ≤ i) :
    decodeNat (Json.num i) = some i.toNat := by
  have hlt : ¬ (i < 0) := by omega
  simp [decodeNat, hlt]

theorem decodeDuration_encode (d : Duration) :
    decodeDuration (encodeDuration d) = some d := by
  simp [decodeDuration, encodeDuration, jLookup, decodeNat_natCast]

theorem encodeSystemTime_of_nonneg {t : SystemTime} (h : 0 ≤ t.tv_sec) :
    encodeSystemTime t =
      some (Json.obj [("secs_since_epoch", Json.num (t.tv_sec.toNat : Int)),
                      ("nanos_since_epoch", Json.num (t.tv_nsec : Int))]) := by
  have hlt : ¬ (t.tv_sec < 0) := by omega
  simp [encodeSystemTime, duration_since_epoch, hlt]

theorem encodeSystemTime_none {t : SystemTime} (h : t.tv_sec < 0) :
    encodeSystemTime t = none := by
  simp [encodeSystemTime, duration_since_epoch, h]

theorem decodeSystemTime_encode {t : SystemTime} {j : Json}
    (h : encodeSystemTime t = some j) : decodeSystemTime j = some t := by
  by_cases hlt : t.tv_sec < 0
  · rw [encodeSystemTime_none hlt] at h
    exact absurd h (by simp)
  · have hge : 0 ≤ t.tv_sec := by omega
    rw [encodeSystemTime_of_nonneg hge] at h
    simp only [Option.some.injEq] at h
    subst h
    simp [decodeSystemTime, jLookup, decodeNat_natCast, decodeNat_of_nonneg hge,
      Int.toNat_of_nonneg hge]

theorem decodeIncludeStats_encode (i : IncludeStats) :
    decodeIncludeStats (encodeIncludeStats i) = some i := by
  simp [decodeIncludeStats, encodeIncludeStats, jLookup, decodeNat_natCast, decodeStr]

theorem decodeStatsList_encode (l : List IncludeStats) :
    decodeStatsList (Json.arr (l.map encodeIncludeStats)) = some l := by
  simp only [decodeStatsList]
  induction l with
  | nil => rfl
  | cons x xs ih =>
    simp [decodeStatsElems, decodeIncludeStats_encode, ih]

/-- Core round-trip fact: whenever serialization succeeds, deserializing
the serialized record recovers the record exactly. -/
theorem decodeRecord_encode {r : TranslationUnitStats} {j : Json}
    (h : encodeRecord r = some j) : decodeRecord j = some r := by
  cases hts : encodeSystemTime r.timestamp with
  | none =>
    rw [encodeRecord.eq_def, hts] at h
    exact absurd h (by simp)
  | some jts =>
    rw [encodeRecord.eq_def, hts] at h
    simp only [Option.some.injEq] at h
    subst h
    simp [decodeRecord, jLookup, decodeNat_natCast, decodeStr, decodeBool,
      decodeDuration_encode, decodeStatsList_encode, decodeSystemTime_encode hts]

/-! ## The persistent-store key

`TuStatsStorage::record` derives the key string
`format("{:?}:{}", stats.timestamp, stats.input_file.display())`.
On Unix the `Debug` rendering of `SystemTime` is
`SystemTime \x7b tv_sec: <i64>, tv_nsec: <u32> \x7d`. -/

def stHeader : String := "SystemTime \x7b tv_sec: "

def stMid : String := ", tv_nsec: "

def stClose : String := " \x7d"

/-- The `Debug` rendering of a `SystemTime` value, as a character list. -/
def debugSystemTime (t : SystemTime) : List Char :=
  stHeader.data ++ intRepr t.tv_sec ++ stMid.data ++ natDigits t.tv_nsec ++ stClose.data

/-- Character list of the fjall key built by `TuStatsStorage::record`. -/
def tuKeyChars (r : TranslationUnitStats) : List Char :=
  debugSystemTime r.timestamp ++ ':' :: r.input_file.data

/-- The fjall key built by `TuStatsStorage::record`:
timestamp debug rendering, a colon, then the input file path. -/
def tuKey (r : TranslationUnitStats) : String :=
  String.mk (tuKeyChars r)

/-- If `c` occurs in neither prefix, splitting two equal lists at the first
occurrence of `c` identifies the prefixes and the tails. -/
theorem first_occ_eq {c : Char} :
    ∀ (A A' rest rest' : List Char), c ∉ A → c ∉ A' →
      A ++ c :: rest = A' ++ c :: rest' → A = A' ∧ rest = rest' := by
  intro A
  induction A with
  | nil =>
    intro A' rest rest' _ hA' h
    cases A' with
    | nil => simp_all
    | cons a as =>
      exfalso
      simp only [List.nil_append, List.cons_append, List.cons.injEq] at h
      exact hA' (h.1 ▸ List.mem_cons_self a as)
  | cons a as ih =>
    intro A' rest rest' hA hA' h
    cases A' with
    | nil =>
      exfalso
      simp only [List.cons_append, List.nil_append, List.cons.injEq] at h
      exact hA (h.1 ▸ List.mem_cons_self a as)
    | cons b bs =>
      simp only [List.cons_append, List.cons.injEq] at h
      have hmemA : c ∉ as := fun hm => hA (List.mem_cons_of_mem a hm)
      have hmemA' : c ∉ bs := fun hm => hA' (List.mem_cons_of_mem b hm)
      have := ih bs rest rest' hmemA hmemA' h.2
      exact ⟨by rw [h.1, this.1], this.2⟩

theorem brace_not_mem_intRepr (i : Int) : '\x7d' ∉ intRepr i := by
  intro hm
  have := intRepr_mem i '\x7d' hm
  revert this; decide

theorem brace_not_mem_natDigits (n : Nat) : '\x7d' ∉ natDigits n := by
  intro hm
  have := natDigits_mem_digits n '\x7d' hm
  revert this; decide

theorem comma_not_mem_intRepr (i : Int) : ',' ∉ intRepr i := by
  intro hm
  have := intRepr_mem i ',' hm
  revert this; decide

/-- Right-associated view of the timestamp rendering: everything before
the closing brace, then the brace. -/
def stBody (t : SystemTime) : List Char :=
  stHeader.data ++ (intRepr t.tv_sec ++ (stMid.data ++ (natDigits t.tv_nsec ++ [' '])))

theorem stClose_data : stClose.data = [' ', '\x7d'] := by decide

theorem debugSystemTime_eq_body (t : SystemTime) :
    debugSystemTime t = stBody t ++ ['\x7d'] := by
  simp [debugSystemTime, stBody, stClose_data, List.append_assoc]

/-- No closing brace occurs before the one ending the timestamp rendering. -/
theorem brace_not_mem_stBody (t : SystemTime) : '\x7d' ∉ stBody t := by
  intro hm
  simp only [stBody, List.mem_append, List.mem_singleton] at hm
  rcases hm with h | (h | (h | (h | h)))
  · revert h; decide
  · exact brace_not_mem_intRepr _ h
  · revert h; decide
  · exact brace_not_mem_natDigits _ h
  · exact absurd h (by decide)

/-- The `Debug` rendering of `SystemTime` is injective. -/
theorem debugSystemTime_inj {t₁ t₂ : SystemTime}
    (h : debugSystemTime t₁ = debugSystemTime t₂) : t₁ = t₂ := by
  rw [debugSystemTime_eq_body, debugSystemTime_eq_body] at h
  have hbody : stBody t₁ = stBody t₂ := List.append_cancel_right h
  simp only [stBody] at hbody
  have h1 := List.append_cancel_left hbody
  have hmid : stMid.data = ',' :: " tv_nsec: ".data := by decide
  rw [hmid] at h1
  simp only [List.cons_append] at h1
  have h2 := first_occ_eq _ _ _ _ (comma_not_mem_intRepr t₁.tv_sec)
    (comma_not_mem_intRepr t₂.tv_sec) h1
  have hsec : t₁.tv_sec = t₂.tv_sec := intRepr_inj h2.1
  have h3 : natDigits t₁.tv_nsec ++ [' '] = natDigits t₂.tv_nsec ++ [' '] := by
    have h4 := h2.2
    simp only [List.nil_append, List.cons.injEq, true_and] at h4
    exact h4
  have hnsec : t₁.tv_nsec = t₂.tv_nsec := natDigits_inj _ _ (List.append_cancel_right h3)
  cases t₁; cases t₂
  simp_all

theorem tuKeyChars_eq_body (r : TranslationUnitStats) :
    tuKeyChars r = stBody r.timestamp ++ '\x7d' :: ':' :: r.input_file.data := by
  simp [tuKeyChars, debugSystemTime_eq_body, List.append_assoc]

/-- Key injectivity: equal keys force equal timestamps and equal input
files.  The closing brace ending the timestamp rendering is the first
closing brace of the key, so the key splits unambiguously even when the
file path itself contains braces or colons. -/
theorem tuKey_inj {r₁ r₂ : TranslationUnitStats} (h : tuKey r₁ = tuKey r₂) :
    r₁.timestamp = r₂.timestamp ∧ r₁.input_file = r₂.input_file := by
  have hchars : tuKeyChars r₁ = tuKeyChars r₂ := congrArg String.data h
  rw [tuKeyChars_eq_body, tuKeyChars_eq_body] at hchars
  have hsplit := first_occ_eq _ _ _ _ (brace_not_mem_stBody r₁.timestamp)
    (brace_not_mem_stBody r₂.timestamp) hchars
  have hdata : r₁.input_file.data = r₂.input_file.data := by
    have := hsplit.2
    simp only [List.cons.injEq, true_and] at this
    exact this
  have hfile : r₁.input_file = r₂.input_file :=
    calc r₁.input_file = String.mk r₁.input_file.data := rfl
      _ = String.mk r₂.input_file.data := by rw [hdata]
      _ = r₂.input_file := rfl
  have hts : r₁.timestamp = r₂.timestamp := by
    apply debugSystemTime_inj
    rw [debugSystemTime_eq_body, debugSystemTime_eq_body, hsplit.1]
  exact ⟨hts, hfile⟩

/-- The key depends only on the timestamp and the input file. -/
theorem tuKey_congr {r₁ r₂ : TranslationUnitStats}
    (hts : r₁.timestamp = r₂.timestamp) (hf : r₁.input_file = r₂.input_file) :
    tuKey r₁ = tuKey r₂ := by
  simp [tuKey, tuKeyChars, debugSystemTime, hts, hf]

/-! ## The persistent store

A fjall partition is a durable map from byte-string keys to byte-string
values; here it is an association list with at most one entry per key.
`storeInsert` is the engine's `insert` (replacing the value when the key
exists), `TuStatsStorage.record` serializes and inserts under the derived
key, and `TuStatsStorage.get_all` iterates the partition and deserializes
each value, surfacing a hard error for any value that fails. -/

abbrev Store := List (String × Json)

def storeInsert : Store → String → Json → Store
  | [], k, v => [(k, v)]
  | (k', v') :: rest, k, v =>
    if k' = k then (k, v) :: rest else (k', v') :: storeInsert rest k v

/-- Record statistics for a translation unit (`TuStatsStorage::record`):
serialize — failing, as serde does, for a timestamp before the epoch —
then write the bytes under the derived key.  Engine-level write and
persist failures are I/O and stay outside the pure model (they enter
`record_stats` parametrically below). -/
def TuStatsStorage.record (s : Store) (stats : TranslationUnitStats) :
    Except String Store :=
  match encodeRecord stats with
  | none => Except.error "Failed to serialize TU stats"
  | some value => Except.ok (storeInsert s (tuKey stats) value)

/-- Read every record back (`TuStatsStorage::get_all`): iterate the
partition and deserialize each stored value, failing on the first value
that does not deserialize. -/
def TuStatsStorage.get_all : Store → Except String (List TranslationUnitStats)
  | [] => Except.ok []
  | (_, v) :: rest =>
    match decodeRecord v with
    | none => Except.error "Failed to deserialize TU stats"
    | some r =>
      match TuStatsStorage.get_all rest with
      | Except.error e => Except.error e
      | Except.ok rs => Except.ok (r :: rs)

/-- Every stored value deserializes. -/
def cleanStore (s : Store) : Prop :=
  ∀ p ∈ s, (decodeRecord (Prod.snd p)).isSome

/-- The records a store holds, in iteration order. -/
def decodeValues (s : Store) : List TranslationUnitStats :=
  s.filterMap fun p => decodeRecord p.2

theorem mem_storeInsert_self (s : Store) (k : String) (v : Json) :
    (k, v) ∈ storeInsert s k v := by
  induction s with
  | nil => simp [storeInsert]
  | cons p rest ih =>
    obtain ⟨k', v'⟩ := p
    by_cases h : k' = k <;> simp [storeInsert, h, ih]

theorem mem_storeInsert_of_mem {s : Store} {k' : String} {v' : Json}
    (k : String) (v : Json) (hmem : (k', v') ∈ s) (hne : k' ≠ k) :
    (k', v') ∈ storeInsert s k v := by
  induction s with
  | nil => simp at hmem
  | cons p rest ih =>
    obtain ⟨k₀, v₀⟩ := p
    rcases List.mem_cons.mp hmem with h | h
    · simp only [Prod.mk.injEq] at h
      by_cases heq : k₀ = k
      · exact absurd (h.1 ▸ heq) hne
      · simp [storeInsert, heq, h.1, h.2]
    · by_cases heq : k₀ = k
      · simp only [storeInsert, heq, if_pos rfl]
        exact List.mem_cons_of_mem _ h
      · simp only [storeInsert, heq, if_false]
        exact List.mem_cons_of_mem _ (ih h)

theorem mem_of_mem_storeInsert {s : Store} {k : String} {v : Json}
    {p : String × Json} (hmem : p ∈ storeInsert s k v) :
    p = (k, v) ∨ p ∈ s := by
  induction s with
  | nil => simpa [storeInsert] using hmem
  | cons q rest ih =>
    obtain ⟨k₀, v₀⟩ := q
    by_cases heq : k₀ = k
    · simp only [storeInsert, heq, if_pos rfl] at hmem
      rcases List.mem_cons.mp hmem with h | h
      · exact Or.inl h
      · exact Or.inr (List.mem_cons_of_mem _ h)
    · simp only [storeInsert, heq, if_false] at hmem
      rcases List.mem_cons.mp hmem with h | h
      · exact Or.inr (h ▸ List.mem_cons_self _ _)
      · rcases ih h with h' | h'
        · exact Or.inl h'
        · exact Or.inr (List.mem_cons_of_mem _ h')

/-- A successful insert produced exactly an insertion of the serialized
record under its key. -/
theorem record_ok_elim {s s' : Store} {r : TranslationUnitStats}
    (hok : TuStatsStorage.record s r = Except.ok s') :
    ∃ j, encodeRecord r = some j ∧ s' = storeInsert s (tuKey r) j := by
  cases henc : encodeRecord r with
  | none => simp [TuStatsStorage.record, henc] at hok
  | some j =>
    simp only [TuStatsStorage.record, henc, Except.ok.injEq] at hok
    exact ⟨j, rfl, hok.symm⟩

theorem record_ok_of_nonneg (s : Store) (r : TranslationUnitStats)
    (h : 0 ≤ r.timestamp.tv_sec) :
    ∃ s', TuStatsStorage.record s r = Except.ok s' := by
  cases henc : encodeRecord r with
  | none => simp [encodeRecord, encodeSystemTime_of_nonneg h] at henc
  | some j =>
    exact ⟨storeInsert s (tuKey r) j, by simp [TuStatsStorage.record, henc]⟩

theorem record_error_of_neg (s : Store) (r : TranslationUnitStats)
    (h : r.timestamp.tv_sec < 0) :
    TuStatsStorage.record s r = Except.error "Failed to serialize TU stats" := by
  simp only [TuStatsStorage.record, encodeRecord, encodeSystemTime_none h]

theorem cleanStore_record {s s' : Store} {r : TranslationUnitStats}
    (hs : cleanStore s) (hok : TuStatsStorage.record s r = Except.ok s') :
    cleanStore s' := by
  obtain ⟨j, henc, rfl⟩ := record_ok_elim hok
  intro p hp
  rcases mem_of_mem_storeInsert hp with h | h
  · subst h
    simp [decodeRecord_encode henc]
  · exact hs p h

/-- On a store whose values all deserialize, `get_all` succeeds and
returns exactly the decoded values in iteration order. -/
theorem get_all_clean {s : Store} (hs : cleanStore s) :
    TuStatsStorage.get_all s = Except.ok (decodeValues s) := by
  induction s with
  | nil => rfl
  | cons p rest ih =>
    obtain ⟨k, v⟩ := p
    have hdec := hs (k, v) (List.mem_cons_self _ _)
    obtain ⟨r, hr⟩ := Option.isSome_iff_exists.mp hdec
    have hrest : cleanStore rest := fun q hq => hs q (List.mem_cons_of_mem _ hq)
    simp [TuStatsStorage.get_all, hr, ih hrest, decodeValues, List.filterMap_cons]

theorem mem_decodeValues {s : Store} {k : String} {v : Json}
    {r : TranslationUnitStats} (hmem : (k, v) ∈ s)
    (hdec : decodeRecord v = some r) : r ∈ decodeValues s :=
  List.mem_filterMap.mpr ⟨(k, v), hmem, hdec⟩

/-- A corrupt value anywhere in the store makes `get_all` fail. -/
theorem get_all_error {s : Store}
    (h : ∃ p ∈ s, decodeRecord (Prod.snd p) = none) :
    TuStatsStorage.get_all s = Except.error "Failed to deserialize TU stats" := by
  induction s with
  | nil => simp at h
  | cons p rest ih =>
    obtain ⟨k, v⟩ := p
    obtain ⟨q, hq, hdec⟩ := h
    rcases List.mem_cons.mp hq with hhead | htail
    · subst hhead
      simp only at hdec
      simp [TuStatsStorage.get_all, hdec]
    · cases hv : decodeRecord v with
      | none => simp [TuStatsStorage.get_all, hv]
      | some r =>
        have := ih ⟨q, htail, hdec⟩
        simp [TuStatsStorage.get_all, hv, this]

/-- When `get_all` succeeds, no stored value was skipped: every entry
deserialized and its record is in the returned list. -/
theorem get_all_ok_complete {s : Store} {l : List TranslationUnitStats}
    (h : TuStatsStorage.get_all s = Except.ok l) :
    ∀ p ∈ s, ∃ r, decodeRecord (Prod.snd p) = some r ∧ r ∈ l := by
  induction s generalizing l with
  | nil => simp
  | cons p rest ih =>
    obtain ⟨k, v⟩ := p
    intro q hq
    cases hv : decodeRecord v with
    | none => simp [TuStatsStorage.get_all, hv] at h
    | some r =>
      cases hrest : TuStatsStorage.get_all rest with
      | error e => simp [TuStatsStorage.get_all, hv, hrest] at h
      | ok rs =>
        simp only [TuStatsStorage.get_all, hv, hrest] at h
        cases h
        rcases List.mem_cons.mp hq with hhead | htail
        · subst hhead
          exact ⟨r, hv, List.mem_cons_self _ _⟩
        · obtain ⟨r', hr', hmem⟩ := ih hrest q htail
          exact ⟨r', hr', List.mem_cons_of_mem _ hmem⟩

/-! ## The global recorder

`GLOBAL_RECORDER` is a process-wide mutex-guarded `Option<TuStatsStorage>`;
here its contents are passed explicitly.  `TuStatsStorage::new` performs
I/O and the full `TuStatsStorage::record` can additionally fail in the
engine write or persist step, so both enter the model as function
parameters returning `Except`; `TuStatsStorage.record` above gives the
serialization-accurate semantics a caller may plug in for the latter. -/

structure TranslationUnitStatsConfig where
  enabled : Bool
  stats_file : Option String

/-- What one `init_recorder` call produced: its returned `Result`, the
recorder state it left behind, and how many times it opened a store. -/
structure InitOutcome where
  result : Except String Unit
  recorder : Option Store
  opens : Nat

/-- `init_recorder`: disabled configurations return `Ok(())` at once;
otherwise the target path is resolved, a store is opened (possibly
failing), and on success the store is installed as the sink. -/
def init_recorder (newStorage : String → Except String Store) (defaultDir : String)
    (config : TranslationUnitStatsConfig) (recorder : Option Store) : InitOutcome :=
  if config.enabled = false then ⟨Except.ok (), recorder, 0⟩
  else
    let stats_file := match config.stats_file with
      | some p => p
      | none => defaultDir ++ "/tu_stats.db"
    match newStorage stats_file with
    | Except.error e => ⟨Except.error e, recorder, 1⟩
    | Except.ok st => ⟨Except.ok (), some st, 1⟩

/-- `record_stats`: returns unit to its caller; the only outputs are the
recorder state afterwards and the warnings logged.  `storeWrite` is the
possibly-failing write of `TuStatsStorage::record`. -/
def record_stats (storeWrite : Store → TranslationUnitStats → Except String Store)
    (recorder : Option Store) (stats : TranslationUnitStats) :
    Option Store × List String :=
  match recorder with
  | none => (none, [])
  | some storage =>
    match storeWrite storage stats with
    | Except.ok st' => (some st', [])
    | Except.error e => (some storage, ["Failed to record TU stats: " ++ e])

/-! ## CSV export

`export_to_csv` renders a fixed header, then one line per record: the
eight scalar columns, three `(col,count,lines)` chunks from the by-count
ranking, three `(col,lines,count)` chunks from the by-size ranking, then a
newline.  The timestamp column is
`duration_since(UNIX_EPOCH).unwrap_or_default().as_secs()`.  On Unix a
`SystemTime` keeps its nanosecond part in `[0, 10^9)`, so the instant lies
before the epoch exactly when `tv_sec` is negative; `duration_since` then
fails and `unwrap_or_default` yields the zero duration. -/

/-- The timestamp column value: whole seconds of the duration since the
epoch, zero when the instant is before the epoch. -/
def timestampSecs (t : SystemTime) : Nat :=
  ((duration_since_epoch t).getD ⟨0, 0⟩).secs

/-- `Duration::as_millis`. -/
def Duration.as_millis (d : Duration) : Nat :=
  d.secs * 1000 + d.nanos / 1000000

/-- The `if stat.is_distributed { "true" } else { "false" }` column. -/
def boolStr (b : Bool) : String := if b then "true" else "false"

def csvHeader : String :=
  "timestamp,input_file,preprocessed_size,num_includes,preprocess_duration_ms,compile_duration_ms,dist_retry_count,is_distributed,"
  ++ "top1_by_count,top1_count,top1_lines,top2_by_count,top2_count,top2_lines,top3_by_count,top3_count,top3_lines,"
  ++ "top1_by_size,top1_lines,top1_count,top2_by_size,top2_lines,top2_count,top3_by_size,top3_lines,top3_count\n"

/-- The eight scalar columns of one data row. -/
def scalarPart (stat : TranslationUnitStats) : String :=
  natToString (timestampSecs stat.timestamp) ++ "," ++ stat.input_file ++ ","
  ++ natToString stat.preprocessed_size ++ "," ++ natToString stat.num_includes ++ ","
  ++ natToString stat.preprocess_duration.as_millis ++ ","
  ++ natToString stat.compile_duration.as_millis ++ ","
  ++ natToString stat.dist_retry_count ++ "," ++ boolStr stat.is_distributed

/-- One iteration of the by-count loop: `,prefix,count,lines` when entry
`i` exists, `,,,` otherwise. -/
def countChunk (l : List IncludeStats) (i : Nat) : String :=
  match l[i]? with
  | some inc => "," ++ inc.path_pre ++ "," ++ natToString inc.count ++ "," ++ natToString inc.lines
  | none => ",,,"

/-- One iteration of the by-size loop: `,prefix,lines,count` when entry
`i` exists (secondary fields swapped), `,,,` otherwise. -/
def sizeChunk (l : List IncludeStats) (i : Nat) : String :=
  match l[i]? with
  | some inc => "," ++ inc.path_pre ++ "," ++ natToString inc.lines ++ "," ++ natToString inc.count
  | none => ",,,"

/-- One data row before its terminating newline. -/
def csvRowMain (stat : TranslationUnitStats) : String :=
  scalarPart stat
  ++ countChunk stat.top_includes_by_count 0
  ++ countChunk stat.top_includes_by_count 1
  ++ countChunk stat.top_includes_by_count 2
  ++ sizeChunk stat.top_includes_by_size 0
  ++ sizeChunk stat.top_includes_by_size 1
  ++ sizeChunk stat.top_includes_by_size 2

def csvRow (stat : TranslationUnitStats) : String := csvRowMain stat ++ "\n"

def csvRows : List TranslationUnitStats → String
  | [] => ""
  | s :: rest => csvRow s ++ csvRows rest

/-- Export statistics to CSV format. -/
def export_to_csv (stats : List TranslationUnitStats) : String :=
  csvHeader ++ csvRows stats

/-- An invocation of the exporter in an environment whose wall clock
currently reads `now`: the source consults only each record's stored
timestamp, never the ambient clock, so the clock argument is unused. -/
def export_to_csv_run (now : SystemTime) (stats : List TranslationUnitStats) : String :=
  export_to_csv stats

/-! ### Field-list view of a row

The specification describes a row as an ordered list of fields joined by
commas.  `joinFields` and the `spec...Fields` functions state that view;
the refinement theorems identify it with the code's string building. -/

def joinFields : List String → String
  | [] => ""
  | [x] => x
  | x :: y :: rest => x ++ "," ++ joinFields (y :: rest)

def specHeaderFields : List String :=
  ["timestamp", "input_file", "preprocessed_size", "num_includes",
   "preprocess_duration_ms", "compile_duration_ms", "dist_retry_count", "is_distributed",
   "top1_by_count", "top1_count", "top1_lines",
   "top2_by_count", "top2_count", "top2_lines",
   "top3_by_count", "top3_count", "top3_lines",
   "top1_by_size", "top1_lines", "top1_count",
   "top2_by_size", "top2_lines", "top2_count",
   "top3_by_size", "top3_lines", "top3_count"]

/-- Ranking entry `i` of the by-count block as a `(prefix, count, lines)`
field triple; empty fields when absent. -/
def countTriple (l : List IncludeStats) (i : Nat) : List String :=
  match l[i]? with
  | some inc => [inc.path_pre, natToString inc.count, natToString inc.lines]
  | none => ["", "", ""]

/-- Ranking entry `i` of the by-size block as a `(prefix, lines, count)`
field triple; empty fields when absent. -/
def sizeTriple (l : List IncludeStats) (i : Nat) : List String :=
  match l[i]? with
  | some inc => [inc.path_pre, natToString inc.lines, natToString inc.count]
  | none => ["", "", ""]

/-- The ordered field list of one data row, as the spec describes it. -/
def specRowFields (stat : TranslationUnitStats) : List String :=
  [natToString (timestampSecs stat.timestamp), stat.input_file,
   natToString stat.preprocessed_size, natToString stat.num_includes,
   natToString stat.preprocess_duration.as_millis,
   natToString stat.compile_duration.as_millis,
   natToString stat.dist_retry_count, boolStr stat.is_distributed]
  ++ countTriple stat.top_includes_by_count 0
  ++ countTriple stat.top_includes_by_count 1
  ++ countTriple stat.top_includes_by_count 2
  ++ sizeTriple stat.top_includes_by_size 0
  ++ sizeTriple stat.top_includes_by_size 1
  ++ sizeTriple stat.top_includes_by_size 2

theorem joinFields_append (xs ys : List String) (hx : xs ≠ []) (hy : ys ≠ []) :
    joinFields (xs ++ ys) = joinFields xs ++ "," ++ joinFields ys := by
  induction xs with
  | nil => exact absurd rfl hx
  | cons x xs ih =>
    cases xs with
    | nil =>
      cases ys with
      | nil => exact absurd rfl hy
      | cons y ys => simp [joinFields]
    | cons x' xs' =>
      have hih := ih (by simp)
      simp only [List.cons_append] at hih ⊢
      simp only [joinFields]
      rw [hih]
      simp [String.append_assoc]

theorem countChunk_eq (l : List IncludeStats) (i : Nat) :
    countChunk l i = "," ++ joinFields (countTriple l i) := by
  cases h : l[i]? with
  | none => simp [countChunk, countTriple, h, joinFields]
  | some inc =>
    simp [countChunk, countTriple, h, joinFields, String.append_assoc]

theorem sizeChunk_eq (l : List IncludeStats) (i : Nat) :
    sizeChunk l i = "," ++ joinFields (sizeTriple l i) := by
  cases h : l[i]? with
  | none => simp [sizeChunk, sizeTriple, h, joinFields]
  | some inc =>
    simp [sizeChunk, sizeTriple, h, joinFields, String.append_assoc]

theorem countTriple_ne_nil (l : List IncludeStats) (i : Nat) : countTriple l i ≠ [] := by
  cases h : l[i]? <;> simp [countTriple, h]

theorem sizeTriple_ne_nil (l : List IncludeStats) (i : Nat) : sizeTriple l i ≠ [] := by
  cases h : l[i]? <;> simp [sizeTriple, h]

/-- The code's row building equals the comma-join of the spec's ordered
field list. -/
theorem csvRowMain_eq_joinFields (stat : TranslationUnitStats) :
    csvRowMain stat = joinFields (specRowFields stat) := by
  simp only [csvRowMain, specRowFields, countChunk_eq, sizeChunk_eq]
  rw [joinFields_append _ _ (by simp) (sizeTriple_ne_nil _ _),
    joinFields_append _ _ (by simp) (sizeTriple_ne_nil _ _),
    joinFields_append _ _ (by simp) (sizeTriple_ne_nil _ _),
    joinFields_append _ _ (by simp) (countTriple_ne_nil _ _),
    joinFields_append _ _ (by simp) (countTriple_ne_nil _ _),
    joinFields_append _ _ (by simp) (countTriple_ne_nil _ _)]
  simp [scalarPart, joinFields, String.append_assoc]

/-- The code's header equals the comma-join of the spec's ordered column
names, plus the newline. -/
theorem csvHeader_eq_joinFields :
    csvHeader = joinFields specHeaderFields ++ "\n" := by
  set_option maxRecDepth 10000 in decide

/-! ### Row and column structure of the CSV output

The output's lines are its segments between newlines; a line's field count
is one more than its comma count.  The code writes fields verbatim, so the
fixed column count holds for records whose string fields contain neither
separator character. -/

def commaCount (l : List Char) : Nat := l.count ','

def splitOnNl : List Char → List (List Char)
  | [] => [[]]
  | c :: rest =>
    let r := splitOnNl rest
    if c = '\n' then [] :: r
    else (c :: r.headD []) :: r.tail

/-- A string that keeps CSV structure intact: no separator, no newline. -/
def csvSafe (s : String) : Prop := ',' ∉ s.data ∧ '\n' ∉ s.data

/-- A record whose rendered string fields keep CSV structure intact. -/
def cleanRecord (stat : TranslationUnitStats) : Prop :=
  csvSafe stat.input_file
  ∧ (∀ inc ∈ stat.top_includes_by_count, csvSafe inc.path_pre)
  ∧ (∀ inc ∈ stat.top_includes_by_size, csvSafe inc.path_pre)

theorem splitOnNl_append (a : List Char) (b : List Char) (ha : '\n' ∉ a) :
    splitOnNl (a ++ '\n' :: b) = a :: splitOnNl b := by
  induction a with
  | nil => simp [splitOnNl]
  | cons c a ih =>
    have hc : ¬ (c = '\n') := fun h => ha (h ▸ List.mem_cons_self _ _)
    have ha' : '\n' ∉ a := fun h => ha (List.mem_cons_of_mem _ h)
    simp [splitOnNl, hc, ih ha']

theorem count_comma_natToString (n : Nat) : (natToString n).data.count ',' = 0 := by
  refine List.count_eq_zero_of_not_mem fun hm => ?_
  have := natDigits_mem_digits n ',' hm
  revert this; decide

theorem count_nl_natToString (n : Nat) : (natToString n).data.count '\n' = 0 := by
  refine List.count_eq_zero_of_not_mem fun hm => ?_
  have := natDigits_mem_digits n '\n' hm
  revert this; decide

theorem count_comma_boolStr (b : Bool) : (boolStr b).data.count ',' = 0 := by
  cases b <;> decide

theorem count_nl_boolStr (b : Bool) : (boolStr b).data.count '\n' = 0 := by
  cases b <;> decide

theorem count_comma_countChunk (l : List IncludeStats) (i : Nat)
    (h : ∀ inc ∈ l, csvSafe inc.path_pre) :
    (countChunk l i).data.count ',' = 3 := by
  cases hg : l[i]? with
  | none => simp only [countChunk, hg]; decide
  | some inc =>
    have hp : inc.path_pre.data.count ',' = 0 :=
      List.count_eq_zero_of_not_mem (h inc (List.getElem?_mem hg)).1
    simp only [countChunk, hg, String.data_append, List.count_append,
      count_comma_natToString, hp]
    decide

theorem count_comma_sizeChunk (l : List IncludeStats) (i : Nat)
    (h : ∀ inc ∈ l, csvSafe inc.path_pre) :
    (sizeChunk l i).data.count ',' = 3 := by
  cases hg : l[i]? with
  | none => simp only [sizeChunk, hg]; decide
  | some inc =>
    have hp : inc.path_pre.data.count ',' = 0 :=
      List.count_eq_zero_of_not_mem (h inc (List.getElem?_mem hg)).1
    simp only [sizeChunk, hg, String.data_append, List.count_append,
      count_comma_natToString, hp]
    decide

theorem count_nl_countChunk (l : List IncludeStats) (i : Nat)
    (h : ∀ inc ∈ l, csvSafe inc.path_pre) :
    (countChunk l i).data.count '\n' = 0 := by
  cases hg : l[i]? with
  | none => simp only [countChunk, hg]; decide
  | some inc =>
    have hp : inc.path_pre.data.count '\n' = 0 :=
      List.count_eq_zero_of_not_mem (h inc (List.getElem?_mem hg)).2
    simp only [countChunk, hg, String.data_append, List.count_append,
      count_nl_natToString, hp]
    decide

theorem count_nl_sizeChunk (l : List IncludeStats) (i : Nat)
    (h : ∀ inc ∈ l, csvSafe inc.path_pre) :
    (sizeChunk l i).data.count '\n' = 0 := by
  cases hg : l[i]? with
  | none => simp only [sizeChunk, hg]; decide
  | some inc =>
    have hp : inc.path_pre.data.count '\n' = 0 :=
      List.count_eq_zero_of_not_mem (h inc (List.getElem?_mem hg)).2
    simp only [sizeChunk, hg, String.data_append, List.count_append,
      count_nl_natToString, hp]
    decide

/-- Under clean fields, one data row carries exactly the header's
twenty-five separators. -/
theorem commaCount_csvRowMain (stat : TranslationUnitStats)
    (h : cleanRecord stat) : commaCount (csvRowMain stat).data = 25 := by
  obtain ⟨hfile, hcnt, hsz⟩ := h
  have hf : stat.input_file.data.count ',' = 0 :=
    List.count_eq_zero_of_not_mem hfile.1
  simp only [commaCount, csvRowMain, scalarPart, String.data_append,
    List.count_append, count_comma_natToString, count_comma_boolStr, hf,
    count_comma_countChunk _ _ hcnt, count_comma_sizeChunk _ _ hsz]
  decide

/-- Under clean fields, a data row contains no newline of its own. -/
theorem nl_not_mem_csvRowMain (stat : TranslationUnitStats)
    (h : cleanRecord stat) : '\n' ∉ (csvRowMain stat).data := by
  obtain ⟨hfile, hcnt, hsz⟩ := h
  have hf : stat.input_file.data.count '\n' = 0 :=
    List.count_eq_zero_of_not_mem hfile.2
  refine List.count_eq_zero.mp ?_
  simp only [csvRowMain, scalarPart, String.data_append,
    List.count_append, count_nl_natToString, count_nl_boolStr, hf,
    count_nl_countChunk _ _ hcnt, count_nl_sizeChunk _ _ hsz]
  decide

theorem nl_not_mem_headerMain : '\n' ∉ (joinFields specHeaderFields).data := by
  set_option maxRecDepth 10000 in decide

theorem splitOnNl_csvRows (stats : List TranslationUnitStats)
    (h : ∀ stat ∈ stats, '\n' ∉ (csvRowMain stat).data) :
    splitOnNl (csvRows stats).data =
      (stats.map fun s => (csvRowMain s).data) ++ [[]] := by
  induction stats with
  | nil => simp [csvRows]; decide
  | cons s rest ih =>
    have hs := h s (List.mem_cons_self _ _)
    have hrest : ∀ stat ∈ rest, '\n' ∉ (csvRowMain stat).data :=
      fun q hq => h q (List.mem_cons_of_mem _ hq)
    have hdata : (csvRows (s :: rest)).data =
        (csvRowMain s).data ++ '\n' :: (csvRows rest).data := by
      simp only [csvRows, csvRow, String.data_append]
      have hn : ("\n" : String).data = ['\n'] := by decide
      simp [hn, List.append_assoc]
    rw [hdata, splitOnNl_append _ _ hs, ih hrest]
    simp

/-- The lines of the CSV output: the header line, one line per record,
and the empty segment after the final newline. -/
theorem splitOnNl_export (stats : List TranslationUnitStats)
    (h : ∀ stat ∈ stats, '\n' ∉ (csvRowMain stat).data) :
    splitOnNl (export_to_csv stats).data =
      (joinFields specHeaderFields).data
        :: (stats.map fun s => (csvRowMain s).data) ++ [[]] := by
  have hdr : (export_to_csv stats).data =
      (joinFields specHeaderFields).data ++ '\n' :: (csvRows stats).data := by
    simp only [export_to_csv, csvHeader_eq_joinFields, String.data_append]
    have hn : ("\n" : String).data = ['\n'] := by decide
    simp [hn, List.append_assoc]
  rw [hdr, splitOnNl_append _ _ nl_not_mem_headerMain, splitOnNl_csvRows stats h]
  simp

/-! ## The top-N include aggregator

Modelled from the spec: the aggregator of spec section 4.1 ("Grouping:
contributions are grouped by path prefix; within a group, count = number
of contributions, lines = sum of sizes.  Ranking: groups sorted descending
by the key; ties broken by insertion order of first occurrence (stable
sort).  Truncation: each ranking keeps only the first N groups", N = 10)
is not part of `src/tu_stats.rs`; only its output type `IncludeStats`
lives there.  `groupContribs` accumulates groups in first-occurrence
order; `sortByDesc` is a stable descending insertion sort; `aggregate`
produces the two rankings. -/

def addContrib (acc : List IncludeStats) (p : String) (sz : Nat) : List IncludeStats :=
  match acc with
  | [] => [⟨p, 1, sz⟩]
  | g :: gs =>
    if g.path_pre = p then ⟨p, g.count + 1, g.lines + sz⟩ :: gs
    else g :: addContrib gs p sz

/-- Modelled from the spec: group the contributions by path prefix, in
first-occurrence order. -/
def groupContribs (contribs : List (String × Nat)) : List IncludeStats :=
  contribs.foldl (fun acc c => addContrib acc c.1 c.2) []

def insertByDesc (k : IncludeStats → Nat) (x : IncludeStats) :
    List IncludeStats → List IncludeStats
  | [] => [x]
  | y :: ys => if k y ≤ k x then x :: y :: ys else y :: insertByDesc k x ys

/-- Modelled from the spec: stable insertion sort, descending by `k`;
an element never moves in front of an equal-keyed earlier element. -/
def sortByDesc (k : IncludeStats → Nat) : List IncludeStats → List IncludeStats
  | [] => []
  | x :: xs => insertByDesc k x (sortByDesc k xs)

/-- Modelled from the spec: reduce one compilation's include contributions
to the two bounded top-10 rankings (by count and by cumulative size). -/
def aggregate (contribs : List (String × Nat)) :
    List IncludeStats × List IncludeStats :=
  let groups := groupContribs contribs
  ((sortByDesc (fun g => g.count) groups).take 10,
   (sortByDesc (fun g => g.lines) groups).take 10)

theorem mem_path_addContrib {acc : List IncludeStats} {p q : String} {sz : Nat}
    (h : q ∈ (addContrib acc p sz).map IncludeStats.path_pre) :
    q ∈ acc.map IncludeStats.path_pre ∨ q = p := by
  induction acc with
  | nil => simpa [addContrib] using h
  | cons g gs ih =>
    by_cases hg : g.path_pre = p
    · rw [addContrib, if_pos hg] at h
      simp only [List.map_cons, List.mem_cons] at h ⊢
      tauto
    · rw [addContrib, if_neg hg] at h
      simp only [List.map_cons, List.mem_cons] at h ⊢
      rcases h with h | h
      · tauto
      · rcases ih h with h' | h' <;> tauto

theorem nodup_path_addContrib {acc : List IncludeStats} (p : String) (sz : Nat)
    (h : (acc.map IncludeStats.path_pre).Nodup) :
    ((addContrib acc p sz).map IncludeStats.path_pre).Nodup := by
  induction acc with
  | nil => simp [addContrib]
  | cons g gs ih =>
    simp only [List.map_cons, List.nodup_cons] at h
    by_cases hg : g.path_pre = p
    · rw [addContrib, if_pos hg]
      simp only [List.map_cons, List.nodup_cons]
      exact ⟨hg ▸ h.1, h.2⟩
    · rw [addContrib, if_neg hg]
      simp only [List.map_cons, List.nodup_cons]
      refine ⟨fun hm => ?_, ih h.2⟩
      rcases mem_path_addContrib hm with h' | h'
      · exact h.1 h'
      · exact hg h'

theorem nodup_path_groupContribs (contribs : List (String × Nat)) :
    ((groupContribs contribs).map IncludeStats.path_pre).Nodup := by
  have hgen : ∀ (cs : List (String × Nat)) (acc : List IncludeStats),
      (acc.map IncludeStats.path_pre).Nodup →
      ((cs.foldl (fun acc c => addContrib acc c.1 c.2) acc).map
        IncludeStats.path_pre).Nodup := by
    intro cs
    induction cs with
    | nil => intro acc h; simpa using h
    | cons c cs ih =>
      intro acc h
      exact ih _ (nodup_path_addContrib c.1 c.2 h)
  exact hgen contribs [] (by simp)

theorem perm_insertByDesc (k : IncludeStats → Nat) (x : IncludeStats)
    (l : List IncludeStats) : (insertByDesc k x l).Perm (x :: l) := by
  induction l with
  | nil => simp [insertByDesc]
  | cons y ys ih =>
    by_cases hk : k y ≤ k x
    · simp [insertByDesc, hk]
    · simp only [insertByDesc, hk, if_false]
      exact (ih.cons y).trans (List.Perm.swap x y ys)

theorem perm_sortByDesc (k : IncludeStats → Nat) (l : List IncludeStats) :
    (sortByDesc k l).Perm l := by
  induction l with
  | nil => simp [sortByDesc]
  | cons x xs ih =>
    exact (perm_insertByDesc k x (sortByDesc k xs)).trans (ih.cons x)

theorem pairwise_insertByDesc (k : IncludeStats → Nat) (x : IncludeStats)
    {l : List IncludeStats} (h : l.Pairwise fun a b => k b ≤ k a) :
    (insertByDesc k x l).Pairwise fun a b => k b ≤ k a := by
  induction l with
  | nil => simp [insertByDesc]
  | cons y ys ih =>
    rw [List.pairwise_cons] at h
    by_cases hk : k y ≤ k x
    · rw [insertByDesc, if_pos hk, List.pairwise_cons]
      refine ⟨fun z hz => ?_, List.pairwise_cons.mpr h⟩
      rcases List.mem_cons.mp hz with hz | hz
      · exact hz ▸ hk
      · exact le_trans (h.1 z hz) hk
    · rw [insertByDesc, if_neg hk, List.pairwise_cons]
      refine ⟨fun z hz => ?_, ih h.2⟩
      rcases List.mem_cons.mp ((perm_insertByDesc k x ys).mem_iff.mp hz) with hz | hz
      · exact hz ▸ le_of_not_le hk
      · exact h.1 z hz
  
theorem pairwise_sortByDesc (k : IncludeStats → Nat) (l : List IncludeStats) :
    (sortByDesc k l).Pairwise fun a b => k b ≤ k a := by
  induction l with
  | nil => simp [sortByDesc]
  | cons x xs ih => exact pairwise_insertByDesc k x ih

theorem filter_insertByDesc_ne (k : IncludeStats → Nat) (x : IncludeStats)
    (m : Nat) (l : List IncludeStats) (hx : ¬ (k x = m)) :
    (insertByDesc k x l).filter (fun a => k a == m) =
      l.filter (fun a => k a == m) := by
  have hxb : (k x == m) = false := by simpa using hx
  induction l with
  | nil => simp [insertByDesc, List.filter, hxb]
  | cons y ys ih =>
    by_cases hk : k y ≤ k x
    · simp [insertByDesc, hk, List.filter, hxb]
    · simp only [insertByDesc, hk, if_false]
      cases hyb : (k y == m) <;> simp [List.filter, hyb, ih]

theorem filter_insertByDesc_eq (k : IncludeStats → Nat) (x : IncludeStats)
    (m : Nat) (l : List IncludeStats) (hx : k x = m)
    (hsort : l.Pairwise fun a b => k b ≤ k a) :
    (insertByDesc k x l).filter (fun a => k a == m) =
      x :: l.filter (fun a => k a == m) := by
  have hxb : (k x == m) = true := by simpa using hx
  induction l with
  | nil => simp [insertByDesc, List.filter, hxb]
  | cons y ys ih =>
    rw [List.pairwise_cons] at hsort
    by_cases hk : k y ≤ k x
    · simp [insertByDesc, hk, List.filter, hxb]
    · have hyb : (k y == m) = false := by
        simp only [beq_eq_false_iff_ne, ne_eq]
        omega
      simp only [insertByDesc, hk, if_false]
      rw [List.filter_cons_of_neg (by simp [hyb]), ih hsort.2,
        List.filter_cons_of_neg (by simp [hyb])]

/-- Stability of the ranking order: elements sharing a key value keep
their original relative order (first-seen order). -/
theorem filter_sortByDesc (k : IncludeStats → Nat) (m : Nat)
    (l : List IncludeStats) :
    (sortByDesc k l).filter (fun a => k a == m) =
      l.filter (fun a => k a == m) := by
  induction l with
  | nil => simp [sortByDesc]
  | cons x xs ih =>
    by_cases hx : k x = m
    · rw [sortByDesc, filter_insertByDesc_eq k x m _ hx (pairwise_sortByDesc k xs),
        ih, List.filter_cons_of_pos (by simpa using hx)]
    · rw [sortByDesc, filter_insertByDesc_ne k x m _ hx, ih,
        List.filter_cons_of_neg (by simpa using hx)]

/-! ## Sample records for concrete instantiations -/

def sampleRecord : TranslationUnitStats :=
  ⟨"src/main.cpp", 2048, 5, ⟨1, 500000⟩, ⟨2, 0⟩, 0, false,
   [⟨"folly", 3, 100⟩], [⟨"boost", 2, 900⟩], ⟨1700000000, 123⟩⟩

def sampleRecord2 : TranslationUnitStats :=
  { sampleRecord with timestamp := ⟨1700000100, 0⟩ }

def commaRecord : TranslationUnitStats :=
  ⟨"a,b.cpp", 0, 0, ⟨0, 0⟩, ⟨0, 0⟩, 0, false, [], [], ⟨0, 0⟩⟩

/-- A record whose timestamp lies one second before the UNIX epoch. -/
def preEpochRecord : TranslationUnitStats :=
  ⟨"old.cpp", 0, 0, ⟨0, 0⟩, ⟨0, 0⟩, 0, false, [], [], ⟨-1, 0⟩⟩

/-! ## The claims -/

/-- C1 (counterexample): for a record whose timestamp lies before the
UNIX epoch, the store's insert fails at serialization — serde serializes
`SystemTime` as unsigned seconds since the epoch — so no store results
and scan can never yield the record back: the unconditional
for-every-record round-trip fails. -/
theorem C1_counterexample :
    TuStatsStorage.record [] preEpochRecord
      = Except.error "Failed to serialize TU stats"
    ∧ ∀ s' : Store, TuStatsStorage.record [] preEpochRecord ≠ Except.ok s' := by
  have h0 : TuStatsStorage.record [] preEpochRecord
      = Except.error "Failed to serialize TU stats" := rfl
  exact ⟨h0, fun s' h => Except.noConfusion (h0 ▸ h)⟩

/-- C1 (amended): for every record whose timestamp is at or after the
UNIX epoch — exactly the records the serializer accepts — insert succeeds
and scan on the resulting store yields a record equal in all fields to
the original (over any starting store whose values all deserialize); for
a record before the epoch, insert fails at serialization and writes
nothing. -/
theorem C1_insert_scan_roundtrip :
    (∀ (r : TranslationUnitStats) (s : Store), cleanStore s →
      0 ≤ r.timestamp.tv_sec →
      ∃ s' l, TuStatsStorage.record s r = Except.ok s'
        ∧ TuStatsStorage.get_all s' = Except.ok l ∧ r ∈ l)
    ∧ (∀ (r : TranslationUnitStats) (s : Store), r.timestamp.tv_sec < 0 →
        TuStatsStorage.record s r = Except.error "Failed to serialize TU stats") := by
  constructor
  · intro r s hs hge
    obtain ⟨s', hok⟩ := record_ok_of_nonneg s r hge
    obtain ⟨j, henc, hins⟩ := record_ok_elim hok
    refine ⟨s', decodeValues s', hok, get_all_clean (cleanStore_record hs hok), ?_⟩
    subst hins
    exact mem_decodeValues (mem_storeInsert_self s (tuKey r) j)
      (decodeRecord_encode henc)
  · intro r s hneg
    exact record_error_of_neg s r hneg

theorem C1_insert_scan_roundtrip_witness :
    (cleanStore [] ∧ 0 ≤ sampleRecord.timestamp.tv_sec)
    ∧ ∃ s' l, TuStatsStorage.record [] sampleRecord = Except.ok s'
        ∧ TuStatsStorage.get_all s' = Except.ok l ∧ sampleRecord ∈ l :=
  ⟨⟨by simp [cleanStore], by decide⟩,
    C1_insert_scan_roundtrip.1 sampleRecord [] (by simp [cleanStore]) (by decide)⟩

/-- C2 (counterexample): with a pre-epoch first record whose
(timestamp, input file) pair differs from the second record's, the
program's first insert fails at serialization, so after both insert
attempts scan observes only the second record — refuting the claim's
"scan observes both" clause (key distinctness itself holds, see the
amended theorem). -/
theorem C2_counterexample :
    (preEpochRecord.timestamp, preEpochRecord.input_file)
      ≠ (sampleRecord.timestamp, sampleRecord.input_file)
    ∧ TuStatsStorage.record [] preEpochRecord
        = Except.error "Failed to serialize TU stats"
    ∧ ∃ s' : Store, TuStatsStorage.record [] sampleRecord = Except.ok s'
        ∧ TuStatsStorage.get_all s' = Except.ok [sampleRecord] := by
  exact ⟨by decide, rfl, _, rfl, rfl⟩

/-- C2 (amended): records with distinct (timestamp, input file) pairs get
distinct keys, so whenever both inserts are accepted neither overwrites
the other and scan observes both; records with identical pairs get equal
keys, and of two accepted inserts the later wins. -/
theorem C2_key_uniqueness :
    (∀ r₁ r₂ : TranslationUnitStats,
      (r₁.timestamp, r₁.input_file) ≠ (r₂.timestamp, r₂.input_file) →
      tuKey r₁ ≠ tuKey r₂)
    ∧ (∀ r₁ r₂ : TranslationUnitStats,
        r₁.timestamp = r₂.timestamp → r₁.input_file = r₂.input_file →
        tuKey r₁ = tuKey r₂)
    ∧ (∀ (r₁ r₂ : TranslationUnitStats) (s s₁ s₂ : Store), cleanStore s →
        (r₁.timestamp, r₁.input_file) ≠ (r₂.timestamp, r₂.input_file) →
        TuStatsStorage.record s r₁ = Except.ok s₁ →
        TuStatsStorage.record s₁ r₂ = Except.ok s₂ →
        ∃ l, TuStatsStorage.get_all s₂ = Except.ok l ∧ r₁ ∈ l ∧ r₂ ∈ l)
    ∧ (∀ (r₁ r₂ : TranslationUnitStats) (s₁ s₂ : Store),
        r₁.timestamp = r₂.timestamp → r₁.input_file = r₂.input_file →
        TuStatsStorage.record [] r₁ = Except.ok s₁ →
        TuStatsStorage.record s₁ r₂ = Except.ok s₂ →
        TuStatsStorage.get_all s₂ = Except.ok [r₂]) := by
  refine ⟨?_, ?_, ?_, ?_⟩
  · intro r₁ r₂ hne hk
    exact hne (by obtain ⟨a, b⟩ := tuKey_inj hk; rw [a, b])
  · intro r₁ r₂ hts hf
    exact tuKey_congr hts hf
  · intro r₁ r₂ s s₁ s₂ hclean hne hok₁ hok₂
    have hkne : tuKey r₁ ≠ tuKey r₂ := fun hk =>
      hne (by obtain ⟨a, b⟩ := tuKey_inj hk; rw [a, b])
    obtain ⟨j₁, henc₁, rfl⟩ := record_ok_elim hok₁
    obtain ⟨j₂, henc₂, rfl⟩ := record_ok_elim hok₂
    have h1 : (tuKey r₁, j₁) ∈
        storeInsert (storeInsert s (tuKey r₁) j₁) (tuKey r₂) j₂ :=
      mem_storeInsert_of_mem _ _ (mem_storeInsert_self s _ _) hkne
    have h2 : (tuKey r₂, j₂) ∈
        storeInsert (storeInsert s (tuKey r₁) j₁) (tuKey r₂) j₂ :=
      mem_storeInsert_self _ _ _
    have hclean2 := cleanStore_record (cleanStore_record hclean hok₁) hok₂
    exact ⟨decodeValues _, get_all_clean hclean2,
      mem_decodeValues h1 (decodeRecord_encode henc₁),
      mem_decodeValues h2 (decodeRecord_encode henc₂)⟩
  · intro r₁ r₂ s₁ s₂ hts hf hok₁ hok₂
    have hk : tuKey r₁ = tuKey r₂ := tuKey_congr hts hf
    obtain ⟨j₁, henc₁, rfl⟩ := record_ok_elim hok₁
    obtain ⟨j₂, henc₂, rfl⟩ := record_ok_elim hok₂
    simp only [storeInsert]
    rw [if_pos hk]
    simp [TuStatsStorage.get_all, decodeRecord_encode henc₂]

theorem C2_key_uniqueness_witness :
    tuKey sampleRecord ≠ tuKey sampleRecord2 :=
  C2_key_uniqueness.1 sampleRecord sampleRecord2 (by decide)

/-- C3: `record_stats` never propagates an error to its caller: with no
sink it does nothing; with a sink, a failed write leaves only a logged
warning while a successful write logs nothing — the function's result
carries no error in any case. -/
theorem C3_record_stats_never_errors
    (storeWrite : Store → TranslationUnitStats → Except String Store)
    (recorder : Option Store) (stats : TranslationUnitStats) :
    (recorder = none → record_stats storeWrite recorder stats = (none, []))
    ∧ (∀ st e, recorder = some st → storeWrite st stats = Except.error e →
        record_stats storeWrite recorder stats
          = (some st, ["Failed to record TU stats: " ++ e]))
    ∧ (∀ st st', recorder = some st → storeWrite st stats = Except.ok st' →
        record_stats storeWrite recorder stats = (some st', [])) := by
  refine ⟨?_, ?_, ?_⟩
  · intro h; subst h; rfl
  · intro st e hrec hw; subst hrec; simp [record_stats, hw]
  · intro st st' hrec hw; subst hrec; simp [record_stats, hw]

theorem C3_record_stats_never_errors_witness :
    record_stats (fun _ _ => Except.error "disk full") (some []) sampleRecord
      = (some [], ["Failed to record TU stats: disk full"]) :=
  (C3_record_stats_never_errors (fun _ _ => Except.error "disk full")
    (some []) sampleRecord).2.1 [] "disk full" rfl rfl

/-- C4: if any stored value fails to deserialize, scan returns an error —
never a shortened record list; and whenever scan returns a list, every
stored entry deserialized and appears in it. -/
theorem C4_scan_corrupt_error (s : Store) :
    ((∃ p ∈ s, decodeRecord (Prod.snd p) = none) →
      TuStatsStorage.get_all s = Except.error "Failed to deserialize TU stats")
    ∧ (∀ l, TuStatsStorage.get_all s = Except.ok l →
        ∀ p ∈ s, ∃ r, decodeRecord (Prod.snd p) = some r ∧ r ∈ l) :=
  ⟨get_all_error, fun _ h => get_all_ok_complete h⟩

theorem C4_scan_corrupt_error_witness :
    TuStatsStorage.get_all [("k", Json.bool true)]
      = Except.error "Failed to deserialize TU stats" :=
  (C4_scan_corrupt_error [("k", Json.bool true)]).1
    ⟨("k", Json.bool true), by simp, rfl⟩

/-- C5 (counterexample): with a sink installed by an earlier enabled
`init_recorder`, a later disabled `init_recorder` does NOT leave the
global sink unset, and a subsequent `record_stats` does write to the
store — refuting the claim's "for every prior state" clause. -/
theorem C5_counterexample :
    (init_recorder (fun _ => Except.ok []) "cache" ⟨false, none⟩ (some [])).recorder ≠ none
    ∧ ∃ st : Store,
        record_stats TuStatsStorage.record
          ((init_recorder (fun _ => Except.ok []) "cache" ⟨false, none⟩ (some [])).recorder)
          sampleRecord
          = (some st, [])
        ∧ st ≠ [] := by
  refine ⟨by simp [init_recorder], _, rfl, by simp [storeInsert]⟩

/-- C5 (amended): a disabled `init_recorder` returns success, opens no
store, and leaves the recorder exactly as it was — in particular unset if
it was unset, in which case subsequent `record_stats` calls do nothing. -/
theorem C5_disabled_init_amended
    (newStorage : String → Except String Store) (defaultDir : String)
    (config : TranslationUnitStatsConfig) (recorder : Option Store)
    (h : config.enabled = false) :
    init_recorder newStorage defaultDir config recorder
      = ⟨Except.ok (), recorder, 0⟩
    ∧ (recorder = none →
        ∀ storeWrite stats, record_stats storeWrite recorder stats = (none, [])) := by
  constructor
  · simp [init_recorder, h]
  · intro hrec sw stats
    subst hrec
    rfl

theorem C5_disabled_init_amended_witness :
    ((⟨false, none⟩ : TranslationUnitStatsConfig).enabled = false)
    ∧ (init_recorder (fun _ => Except.ok []) "cache" ⟨false, none⟩ none
        = ⟨Except.ok (), none, 0⟩
      ∧ (none = (none : Option Store) →
          ∀ storeWrite stats, record_stats storeWrite none stats = (none, []))) :=
  ⟨rfl, C5_disabled_init_amended (fun _ => Except.ok []) "cache" ⟨false, none⟩ none rfl⟩

/-- C6: the exporter emits the columns in the specified order — eight
scalar columns, then three (prefix, count, lines) triples from the
by-count ranking, then three (prefix, lines, count) triples from the
by-size ranking, the secondary fields swapped between the blocks — as
both the header and every data row coincide with the comma-join of the
spec's ordered field lists. -/
theorem C6_csv_column_order :
    csvHeader = joinFields specHeaderFields ++ "\n"
    ∧ ∀ stat : TranslationUnitStats,
        csvRow stat = joinFields (specRowFields stat) ++ "\n" :=
  ⟨csvHeader_eq_joinFields, fun stat => by rw [csvRow, csvRowMain_eq_joinFields]⟩

theorem commaCount_headerMain :
    commaCount (joinFields specHeaderFields).data = 25 := by
  set_option maxRecDepth 10000 in decide

/-- C7 (counterexample): a record whose input file contains a comma makes
its data row carry 26 commas against the header's 25, so not every record
list keeps a fixed column count. -/
theorem C7_counterexample :
    splitOnNl (export_to_csv [commaRecord]).data =
      [(joinFields specHeaderFields).data, (csvRowMain commaRecord).data, []]
    ∧ commaCount (csvRowMain commaRecord).data = 26
    ∧ commaCount (joinFields specHeaderFields).data = 25 := by
  set_option maxRecDepth 20000 in decide

/-- C7 (amended): for record lists whose input files and ranking prefixes
contain no comma and no newline, the output splits into the header line,
one line per record, and the trailing empty segment, and every data line
carries exactly the header's comma count — whether or not a ranking has
fewer than three entries, since missing entries render as empty fields. -/
theorem C7_fixed_column_count (stats : List TranslationUnitStats)
    (h : ∀ stat ∈ stats, cleanRecord stat) :
    splitOnNl (export_to_csv stats).data =
      (joinFields specHeaderFields).data
        :: (stats.map fun s => (csvRowMain s).data) ++ [[]]
    ∧ ∀ stat ∈ stats,
        commaCount (csvRowMain stat).data
          = commaCount (joinFields specHeaderFields).data := by
  constructor
  · exact splitOnNl_export stats fun stat hs => nl_not_mem_csvRowMain stat (h stat hs)
  · intro stat hs
    rw [commaCount_csvRowMain stat (h stat hs), commaCount_headerMain]

theorem C7_fixed_column_count_witness :
    (∀ stat ∈ [sampleRecord], cleanRecord stat)
    ∧ (splitOnNl (export_to_csv [sampleRecord]).data =
        (joinFields specHeaderFields).data
          :: ([sampleRecord].map fun s => (csvRowMain s).data) ++ [[]]
      ∧ ∀ stat ∈ [sampleRecord],
          commaCount (csvRowMain stat).data
            = commaCount (joinFields specHeaderFields).data) :=
  ⟨by simp only [cleanRecord, csvSafe]; decide,
    C7_fixed_column_count [sampleRecord] (by simp only [cleanRecord, csvSafe]; decide)⟩

/-- C8: the exporter is deterministic — its output does not depend on the
ambient wall clock, only on the record list, and the timestamp column of
each row is the record's stored timestamp rendered as whole epoch
seconds. -/
theorem C8_csv_deterministic (now₁ now₂ : SystemTime)
    (stats : List TranslationUnitStats) :
    export_to_csv_run now₁ stats = export_to_csv_run now₂ stats
    ∧ ∀ stat ∈ stats,
        (specRowFields stat).head? = some (natToString (timestampSecs stat.timestamp)) :=
  ⟨rfl, fun _ _ => rfl⟩

/-- C9: each ranking list the aggregator produces has unique prefixes,
length at most 10, and descending order by its ranking key, with
equal-keyed entries kept in first-seen order; and the store returns
records exactly as inserted, preserving the invariant. -/
theorem C9_ranking_invariants (contribs : List (String × Nat)) :
    (((aggregate contribs).1.map IncludeStats.path_pre).Nodup
      ∧ (aggregate contribs).1.length ≤ 10
      ∧ (aggregate contribs).1.Pairwise (fun a b => b.count ≤ a.count))
    ∧ (((aggregate contribs).2.map IncludeStats.path_pre).Nodup
      ∧ (aggregate contribs).2.length ≤ 10
      ∧ (aggregate contribs).2.Pairwise (fun a b => b.lines ≤ a.lines))
    ∧ (∀ m, (sortByDesc (fun g => g.count) (groupContribs contribs)).filter
        (fun a => a.count == m)
        = (groupContribs contribs).filter (fun a => a.count == m))
    ∧ (∀ m, (sortByDesc (fun g => g.lines) (groupContribs contribs)).filter
        (fun a => a.lines == m)
        = (groupContribs contribs).filter (fun a => a.lines == m))
    ∧ (∀ (r : TranslationUnitStats) (s s' : Store), cleanStore s →
        TuStatsStorage.record s r = Except.ok s' →
        ∃ l, TuStatsStorage.get_all s' = Except.ok l ∧ r ∈ l) := by
  have hg := nodup_path_groupContribs contribs
  refine ⟨⟨?_, ?_, ?_⟩, ⟨?_, ?_, ?_⟩, ?_, ?_, ?_⟩
  · have hperm := (perm_sortByDesc (fun g => g.count) (groupContribs contribs)).map
      IncludeStats.path_pre
    have hnodup := hperm.nodup_iff.mpr hg
    simp only [aggregate, List.map_take]
    exact List.Nodup.sublist (List.take_sublist _ _) hnodup
  · simp only [aggregate]
    exact List.length_take_le _ _
  · simp only [aggregate]
    exact (pairwise_sortByDesc _ _).sublist (List.take_sublist _ _)
  · have hperm := (perm_sortByDesc (fun g => g.lines) (groupContribs contribs)).map
      IncludeStats.path_pre
    have hnodup := hperm.nodup_iff.mpr hg
    simp only [aggregate, List.map_take]
    exact List.Nodup.sublist (List.take_sublist _ _) hnodup
  · simp only [aggregate]
    exact List.length_take_le _ _
  · simp only [aggregate]
    exact (pairwise_sortByDesc _ _).sublist (List.take_sublist _ _)
  · exact fun m => filter_sortByDesc _ m _
  · exact fun m => filter_sortByDesc _ m _
  · intro r s s' hclean hok
    obtain ⟨j, henc, rfl⟩ := record_ok_elim hok
    exact ⟨decodeValues _, get_all_clean (cleanStore_record hclean hok),
      mem_decodeValues (mem_storeInsert_self s (tuKey r) j)
        (decodeRecord_encode henc)⟩

theorem C9_ranking_invariants_witness :
    cleanStore []
    ∧ ∃ s', TuStatsStorage.record [] sampleRecord2 = Except.ok s'
        ∧ ∃ l, TuStatsStorage.get_all s' = Except.ok l ∧ sampleRecord2 ∈ l := by
  refine ⟨by simp [cleanStore], _, rfl, ?_⟩
  exact (C9_ranking_invariants [("folly", 40), ("boost", 60), ("folly", 10)]).2.2.2.2
    sampleRecord2 [] _ (by simp [cleanStore]) rfl

/-- C10: a record whose timestamp lies before the UNIX epoch has its
timestamp column rendered as 0 — the duration-since-epoch computation
falls back to the zero duration — rather than failing or going
negative. -/
theorem C10_pre_epoch_timestamp_zero (t : SystemTime)
    (hn : t.tv_nsec < 1000000000)
    (hlt : t.tv_sec * 1000000000 + (t.tv_nsec : Int) < 0) :
    timestampSecs t = 0 ∧ natToString (timestampSecs t) = "0" := by
  have hs : t.tv_sec < 0 := by omega
  have h0 : timestampSecs t = 0 := by
    simp [timestampSecs, duration_since_epoch, hs]
  exact ⟨h0, by rw [h0]; decide⟩

theorem C10_pre_epoch_timestamp_zero_witness :
    ((⟨-1, 999999999⟩ : SystemTime).tv_nsec < 1000000000)
    ∧ ((⟨-1, 999999999⟩ : SystemTime).tv_sec * 1000000000
        + ((⟨-1, 999999999⟩ : SystemTime).tv_nsec : Int) < 0)
    ∧ (timestampSecs ⟨-1, 999999999⟩ = 0
        ∧ natToString (timestampSecs ⟨-1, 999999999⟩) = "0") :=
  ⟨by decide, by decide,
    C10_pre_epoch_timestamp_zero ⟨-1, 999999999⟩ (by decide) (by decide)⟩
